import Mathlib

/-!
# Firebase auth migration helper (`src/web/migrate.js`)

A shallow embedding of `FirebaseAuthMigrator` and of the browser facilities it
calls (`localStorage`, `JSON.parse`, `XMLHttpRequest` events, promises), followed
by theorems about its observable behaviour.
-/

namespace FirebaseAuthMigration

/-! ## JavaScript values -/

/-- A JSON number as written, `(-1)^neg * mant * 10^exp`, before it is rounded to a double. -/
structure JSNumber where
  neg : Bool
  mant : Nat
  exp : Int
deriving DecidableEq, Repr

/-- True when the double nearest to the number is `+0` or `-0`: the mantissa is zero, or the
value is at most `2^-1075`, half the least subnormal (ties go to the even neighbour, zero). -/
def JSNumber.isZero (n : JSNumber) : Bool :=
  n.mant == 0 || (n.exp < 0 && decide (n.mant * 2 ^ 1075 ≤ 10 ^ (-n.exp).toNat))

/-- The JavaScript values that `JSON.parse` and a property read on its result can produce. -/
inductive JSValue where
  | undefined
  | null
  | bool (b : Bool)
  | num (n : JSNumber)
  | str (s : String)
  | arr (items : List JSValue)
  | obj (props : List (String × JSValue))

/-- ToBoolean: what `!v` negates. -/
def JSValue.truthy : JSValue → Bool
  | .undefined => false
  | .null => false
  | .bool b => b
  | .num n => !n.isZero
  | .str s => s != ""
  | .arr _ => true
  | .obj _ => true

/-- A value is absent when it is `null` or `undefined`. -/
def JSValue.isAbsent : JSValue → Bool
  | .undefined => true
  | .null => true
  | _ => false

/-- Own property lookup in a parsed object: a later duplicate key overrides an earlier one. -/
def lookupProp (name : String) : List (String × JSValue) → JSValue
  | [] => .undefined
  | (k, v) :: rest =>
    match lookupProp name rest with
    | .undefined => if k = name then v else .undefined
    | found => found

/-- The exceptions the modelled code can raise. -/
inductive JSException where
  | parseError
  | typeError
deriving DecidableEq, Repr

/-- Member read `v.name` for a name that no built-in prototype defines (such as `token`):
reading from `null` or `undefined` throws a TypeError, primitives and arrays give `undefined`. -/
def JSValue.getProp (v : JSValue) (name : String) : Except JSException JSValue :=
  match v with
  | .undefined => .error .typeError
  | .null => .error .typeError
  | .obj props => .ok (lookupProp name props)
  | _ => .ok .undefined

/-! ## `JSON.parse` -/

/-- The double quote character. -/
def dquote : Char := Char.ofNat 34

/-- The backslash character. -/
def bslash : Char := Char.ofNat 92

/-- The opening brace. -/
def lbrace : Char := Char.ofNat 123

/-- The closing brace. -/
def rbrace : Char := Char.ofNat 125

/-- JSON whitespace: space, tab, line feed, carriage return. -/
def isWs (c : Char) : Bool :=
  c.toNat == 32 || c.toNat == 9 || c.toNat == 10 || c.toNat == 13

/-- Drops leading JSON whitespace. -/
def skipWs : List Char → List Char
  | [] => []
  | c :: cs => if isWs c then skipWs cs else c :: cs

/-- Removes the given literal from the front of the input, if it is there. -/
def expectLit : List Char → List Char → Option (List Char)
  | [], cs => some cs
  | _ :: _, [] => none
  | l :: ls, c :: cs => if l = c then expectLit ls cs else none

/-- Value of a hexadecimal digit. -/
def hexVal (c : Char) : Option Nat :=
  let n := c.toNat
  if 48 ≤ n ∧ n ≤ 57 then some (n - 48)
  else if 97 ≤ n ∧ n ≤ 102 then some (n - 87)
  else if 65 ≤ n ∧ n ≤ 70 then some (n - 55)
  else none

/-- The code unit written as four hexadecimal digits. -/
def hex4 (a b c d : Char) : Option Nat :=
  match hexVal a, hexVal b, hexVal c, hexVal d with
  | some w, some x, some y, some z => some (((w * 16 + x) * 16 + y) * 16 + z)
  | _, _, _, _ => none

/-- The character a single-letter escape stands for. -/
def simpleEscape (e : Char) : Option Char :=
  if e = dquote then some dquote
  else if e = bslash then some bslash
  else if e = '/' then some '/'
  else if e = 'b' then some (Char.ofNat 8)
  else if e = 'f' then some (Char.ofNat 12)
  else if e = 'n' then some (Char.ofNat 10)
  else if e = 'r' then some (Char.ofNat 13)
  else if e = 't' then some (Char.ofNat 9)
  else none

/-- The replacement character, standing for an unpaired surrogate code unit. -/
def replacementChar : Char := Char.ofNat 0xFFFD

/-- Appends the replacement character when a high surrogate is left waiting for its pair. -/
def flushHi (acc : List Char) (hi : Option Nat) : List Char :=
  match hi with
  | none => acc
  | some _ => acc ++ [replacementChar]

/-- Adds an escaped UTF-16 code unit `u` to the characters read so far. A high surrogate waits
for the low surrogate that completes it. -/
def pushUnit (acc : List Char) (hi : Option Nat) (u : Nat) : List Char × Option Nat :=
  if 0xDC00 ≤ u ∧ u ≤ 0xDFFF then
    match hi with
    | some h => (acc ++ [Char.ofNat (0x10000 + (h - 0xD800) * 0x400 + (u - 0xDC00))], none)
    | none => (acc ++ [replacementChar], none)
  else if 0xD800 ≤ u ∧ u ≤ 0xDBFF then (flushHi acc hi, some u)
  else (flushHi acc hi ++ [Char.ofNat u], none)

/-- Reads a string body up to its closing quote; the opening quote is already consumed. -/
def parseString : List Char → List Char → Option Nat → Option (String × List Char)
  | [], _, _ => none
  | c :: cs, acc, hi =>
    if c = dquote then some (String.mk (flushHi acc hi), cs)
    else if c = bslash then
      match cs with
      | [] => none
      | e :: cs1 =>
        if e = 'u' then
          match cs1 with
          | a :: b :: c2 :: d :: cs2 =>
            match hex4 a b c2 d with
            | some u => parseString cs2 (pushUnit acc hi u).1 (pushUnit acc hi u).2
            | none => none
          | _ => none
        else
          match simpleEscape e with
          | some ch => parseString cs1 (flushHi acc hi ++ [ch]) none
          | none => none
    else if c.toNat < 32 then none
    else parseString cs (flushHi acc hi ++ [c]) none

/-- Splits off the leading decimal digits. -/
def takeDigits : List Char → List Nat × List Char
  | [] => ([], [])
  | c :: cs =>
    if 48 ≤ c.toNat ∧ c.toNat ≤ 57 then
      ((c.toNat - 48) :: (takeDigits cs).1, (takeDigits cs).2)
    else ([], c :: cs)

/-- The natural number with the given decimal digits. -/
def digitsVal (ds : List Nat) : Nat := ds.foldl (fun a d => a * 10 + d) 0

/-- Reads the optional exponent part of a number. -/
def parseExponent (cs : List Char) : Option (Int × List Char) :=
  match cs with
  | c :: r =>
    if c = 'e' ∨ c = 'E' then
      match r with
      | s :: r1 =>
        if s = '-' then
          match takeDigits r1 with
          | ([], _) => none
          | (ds, r2) => some (-(digitsVal ds : Int), r2)
        else if s = '+' then
          match takeDigits r1 with
          | ([], _) => none
          | (ds, r2) => some ((digitsVal ds : Int), r2)
        else
          match takeDigits r with
          | ([], _) => none
          | (ds, r2) => some ((digitsVal ds : Int), r2)
      | [] => none
    else some (0, cs)
  | [] => some (0, cs)

/-- Reads the optional fraction part of a number: its digits and the rest of the input. -/
def parseFraction (cs : List Char) : Option (List Nat × List Char) :=
  match cs with
  | c :: r =>
    if c = '.' then
      match takeDigits r with
      | ([], _) => none
      | (fs, r1) => some (fs, r1)
    else some ([], cs)
  | [] => some ([], cs)

/-- Splits off an optional leading minus sign. -/
def dropSign : List Char → Bool × List Char
  | [] => (false, [])
  | c :: r => if c = '-' then (true, r) else (false, c :: r)

/-- Reads a JSON number: `-? (0 | [1-9][0-9]*) (. [0-9]+)? ([eE] [+-]? [0-9]+)?`. -/
def parseNumber (cs : List Char) : Option (JSNumber × List Char) :=
  match takeDigits (dropSign cs).2 with
  | ([], _) => none
  | (d :: ds, cs2) =>
    if d = 0 ∧ ds ≠ [] then none
    else
      match parseFraction cs2 with
      | none => none
      | some (fs, cs3) =>
        match parseExponent cs3 with
        | none => none
        | some (e, cs4) =>
          some (⟨(dropSign cs).1, digitsVal (d :: ds ++ fs), e - (fs.length : Int)⟩, cs4)

mutual

/-- Reads one JSON value, preceded by optional whitespace. -/
def parseValue : Nat → List Char → Option (JSValue × List Char)
  | 0, _ => none
  | fuel + 1, cs =>
    match skipWs cs with
    | [] => none
    | c :: r =>
      if c = 'n' then (expectLit "ull".toList r).map fun r1 => (JSValue.null, r1)
      else if c = 't' then (expectLit "rue".toList r).map fun r1 => (JSValue.bool true, r1)
      else if c = 'f' then (expectLit "alse".toList r).map fun r1 => (JSValue.bool false, r1)
      else if c = dquote then (parseString r [] none).map fun p => (JSValue.str p.1, p.2)
      else if c = '[' then
        match skipWs r with
        | [] => none
        | c1 :: r1 =>
          if c1 = ']' then some (JSValue.arr [], r1) else parseElements fuel (c1 :: r1) []
      else if c = lbrace then
        match skipWs r with
        | [] => none
        | c1 :: r1 =>
          if c1 = rbrace then some (JSValue.obj [], r1) else parseMembers fuel (c1 :: r1) []
      else (parseNumber (c :: r)).map fun p => (JSValue.num p.1, p.2)

/-- Reads the elements of a non-empty array up to the closing bracket. -/
def parseElements : Nat → List Char → List JSValue → Option (JSValue × List Char)
  | 0, _, _ => none
  | fuel + 1, cs, acc =>
    match parseValue fuel cs with
    | none => none
    | some (v, r) =>
      match skipWs r with
      | [] => none
      | c :: r1 =>
        if c = ',' then parseElements fuel r1 (acc ++ [v])
        else if c = ']' then some (JSValue.arr (acc ++ [v]), r1)
        else none

/-- Reads the members of a non-empty object up to the closing brace. -/
def parseMembers : Nat → List Char → List (String × JSValue) → Option (JSValue × List Char)
  | 0, _, _ => none
  | fuel + 1, cs, acc =>
    match skipWs cs with
    | [] => none
    | q :: r =>
      if q = dquote then
        match parseString r [] none with
        | none => none
        | some (k, r1) =>
          match skipWs r1 with
          | [] => none
          | c :: r2 =>
            if c = ':' then
              match parseValue fuel r2 with
              | none => none
              | some (v, r3) =>
                match skipWs r3 with
                | [] => none
                | c1 :: r4 =>
                  if c1 = ',' then parseMembers fuel r4 (acc ++ [(k, v)])
                  else if c1 = rbrace then some (JSValue.obj (acc ++ [(k, v)]), r4)
                  else none
            else none
      else none

end

/-- The function `JSON.parse(text)`: the value of the text, or a parse error. The recursion
budget is twice the length of the text plus two; a larger budget gives the same result. -/
def JSON.parse (text : String) : Except JSException JSValue :=
  match parseValue (2 * text.length + 2) text.toList with
  | none => .error .parseError
  | some (v, rest) =>
    match skipWs rest with
    | [] => .ok v
    | _ :: _ => .error .parseError

/-! ## Browser storage, promises and the event log -/

/-- The contents of `localStorage`: keys with their string values. -/
abbrev Storage := List (String × String)

/-- The call `localStorage.getItem(key)`: the stored string, or `none` for JavaScript `null`. -/
def Storage.getItem : Storage → String → Option String
  | [], _ => none
  | (k, v) :: rest, key => if k = key then some v else Storage.getItem rest key

/-- The call `localStorage.removeItem(key)`: drops the entry at `key`; other entries are kept. -/
def Storage.removeItem : Storage → String → Storage
  | [], _ => []
  | (k, v) :: rest, key =>
    if k = key then Storage.removeItem rest key else (k, v) :: Storage.removeItem rest key

/-- A `firebase.auth.Error`: its code and message. -/
structure AuthError where
  code : String
  message : String
deriving DecidableEq, Repr

/-- A user object of the hosting client; as an object it is always truthy. -/
structure User where
  uid : String
deriving DecidableEq, Repr

/-- The state of a promise. -/
inductive Promise (α : Type) where
  | pending
  | fulfilled (value : α)
  | rejected (reason : AuthError)

/-- The externally visible steps the migrator takes, in the order it takes them. -/
inductive Action where
  | removeItem (key : String)
  | xhrSend (method : String) (url : String) (contentType : String) (token : JSValue)
  | signInWithCustomToken (token : JSValue)
  | resolveCalled (value : JSValue)
  | rejectCalled (reason : AuthError)

/-- The mutable surroundings of the migrator: `localStorage` and the record of its steps. -/
structure World where
  storage : Storage
  log : List Action

/-- Appends a step to the record. -/
def World.record (w : World) (a : Action) : World :=
  { w with log := w.log ++ [a] }

/-! ## The migrator -/

/-- The fields set by the constructor. -/
structure FirebaseAuthMigrator where
  ns : String
  storageKey : String

/-- The constructor, given `url.host` of the app's `databaseURL`: the namespace is the part of
the host before its first dot. -/
def FirebaseAuthMigrator.ofHost (host : String) : FirebaseAuthMigrator :=
  let ns := String.mk (host.toList.takeWhile fun c => c != '.')
  { ns := ns, storageKey := "firebase:session::" ++ ns }

/-- Removes any legacy Firebase auth token. -/
def FirebaseAuthMigrator.clearLegacyAuth (m : FirebaseAuthMigrator) (w : World) : World :=
  { storage := w.storage.removeItem m.storageKey
    log := w.log ++ [Action.removeItem m.storageKey] }

/-- The body of the `try` block of `getLegacyToken`: parse, then read `.token`. -/
def readToken (authDataJSON : String) : Except JSException JSValue :=
  match JSON.parse authDataJSON with
  | .error e => .error e
  | .ok authData => authData.getProp "token"

/-- Returns the legacy Firebase auth token, if present. -/
def FirebaseAuthMigrator.getLegacyToken (m : FirebaseAuthMigrator) (w : World) :
    JSValue × World :=
  match w.storage.getItem m.storageKey with
  | none => (JSValue.null, w)
  | some authDataJSON =>
    if authDataJSON = "" then (JSValue.null, w)
    else
      match readToken authDataJSON with
      | .ok token => (token, w)
      | .error _ => (JSValue.null, m.clearLegacyAuth w)

/-- Returns whether there is a legacy Firebase auth token present. -/
def FirebaseAuthMigrator.hasLegacyAuth (m : FirebaseAuthMigrator) (w : World) : Bool × World :=
  ((m.getLegacyToken w).1.truthy, (m.getLegacyToken w).2)

/-- What the request object delivers to the two handlers installed by `exchangeToken`. A
`readystatechange` carries what `req.readyState`, `req.status` and `req.response` read when the
handler runs. -/
inductive XhrEvent where
  | readystatechange (readyState : Nat) (status : Nat) (response : JSValue)
  | error

/-- The value of `req.DONE`. -/
def DONE : Nat := 4

/-- The promise created by `exchangeToken` together with the world, while events arrive. -/
structure Exchange where
  promise : Promise JSValue
  world : World

/-- The `resolve` function of the promise: settles it unless it is settled already. -/
def Exchange.resolve (x : Exchange) (v : JSValue) : Exchange :=
  { promise := match x.promise with
      | .pending => .fulfilled v
      | settled => settled
    world := x.world.record (Action.resolveCalled v) }

/-- The `reject` function of the promise: settles it unless it is settled already. -/
def Exchange.reject (x : Exchange) (e : AuthError) : Exchange :=
  { promise := match x.promise with
      | .pending => .rejected e
      | settled => settled
    world := x.world.record (Action.rejectCalled e) }

/-- The `req.onreadystatechange` handler. -/
def FirebaseAuthMigrator.onreadystatechange (m : FirebaseAuthMigrator)
    (readyState status : Nat) (response : JSValue) (x : Exchange) : Exchange :=
  if readyState ≠ DONE then x
  else if status ≠ 200 then
    let x1 : Exchange :=
      if status = 400 ∨ status = 403 then { x with world := m.clearLegacyAuth x.world } else x
    x1.reject ⟨"invalid-user-token", "Invalid auth token."⟩
  else
    match response.getProp "token" with
    | .error _ => x
    | .ok newToken =>
      if !newToken.truthy then
        x.reject ⟨"network-request-failed", "Invalid response from Firebase."⟩
      else x.resolve newToken

/-- The `req.onerror` handler. -/
def onerror (x : Exchange) : Exchange :=
  x.reject ⟨"network-request-failed", "Unable to verify auth token."⟩

/-- Runs the handler that a request event triggers. -/
def FirebaseAuthMigrator.handle (m : FirebaseAuthMigrator) (x : Exchange) :
    XhrEvent → Exchange
  | .readystatechange readyState status response =>
    m.onreadystatechange readyState status response x
  | .error => onerror x

/-- Sends a legacy auth token to a Firebase backend and receives a new token. The request is
sent, then the handlers run on the events of the request in the order they arrive. -/
def FirebaseAuthMigrator.exchangeToken (m : FirebaseAuthMigrator) (token : JSValue)
    (events : List XhrEvent) (w : World) : Exchange :=
  events.foldl m.handle
    { promise := .pending
      world := w.record (Action.xhrSend "POST"
        ("https://auth.firebase.com/v2/" ++ m.ns ++ "/sessions") "application/json" token) }

/-- How a request ends. -/
inductive XhrOutcome where
  | response (status : Nat) (body : JSValue)
  | networkError
  | noAnswer

/-- The events of a request, as the XMLHttpRequest standard orders them: the ready states
OPENED, HEADERS_RECEIVED, LOADING and DONE for an answered request; for a network error the
state DONE with status 0 and a null response, and then the `error` event. -/
def xhrEvents : XhrOutcome → List XhrEvent
  | .response status body =>
    [.readystatechange 1 0 .null, .readystatechange 2 status .null,
     .readystatechange 3 status .null, .readystatechange DONE status body]
  | .networkError =>
    [.readystatechange 1 0 .null, .readystatechange DONE 0 .null, .error]
  | .noAnswer => [.readystatechange 1 0 .null]

/-- How `firebase.auth().signInWithCustomToken(token)` ends. -/
inductive SignInOutcome where
  | resolved (user : User)
  | rejected (reason : AuthError)
  | unsettled

/-- The result of `migrate`: the returned promise and the world it leaves. -/
structure Migration where
  promise : Promise (Option User)
  world : World

/-- Looks up whether a user is logged in with a legacy Firebase SDK and logs them in with the
current Firebase SDK. `currentUser` is `firebase.auth().currentUser`, `xhr` is how the exchange
request ends and `signIn` is how the client answers a custom token. -/
def FirebaseAuthMigrator.migrate (m : FirebaseAuthMigrator) (currentUser : Option User)
    (xhr : XhrOutcome) (signIn : JSValue → SignInOutcome) (w : World) : Migration :=
  match currentUser with
  | some user => { promise := .fulfilled (some user), world := m.clearLegacyAuth w }
  | none =>
    let token := (m.getLegacyToken w).1
    let w1 := (m.getLegacyToken w).2
    if !token.truthy then { promise := .fulfilled none, world := w1 }
    else
      let x := m.exchangeToken token (xhrEvents xhr) w1
      match x.promise with
      | .pending => { promise := .pending, world := x.world }
      | .rejected e => { promise := .rejected e, world := x.world }
      | .fulfilled newToken =>
        let w2 := x.world.record (Action.signInWithCustomToken newToken)
        match signIn newToken with
        | .resolved user => { promise := .fulfilled (some user), world := m.clearLegacyAuth w2 }
        | .rejected e => { promise := .rejected e, world := w2 }
        | .unsettled => { promise := .pending, world := w2 }

/-! ## Specification vocabulary -/

/-- An event that leaves the request unfinished: a ready state change short of `DONE`. -/
def XhrEvent.inProgress : XhrEvent → Bool
  | .readystatechange readyState _ _ => readyState != DONE
  | .error => false

/-- The error `exchangeToken` raises when the server turns the token down. -/
def invalidUserToken : AuthError := ⟨"invalid-user-token", "Invalid auth token."⟩

/-- The error `exchangeToken` raises when a 200 answer carries no usable token. -/
def invalidResponse : AuthError := ⟨"network-request-failed", "Invalid response from Firebase."⟩

/-- The error the `onerror` handler raises. -/
def unableToVerify : AuthError := ⟨"network-request-failed", "Unable to verify auth token."⟩

/-- The request `exchangeToken` sends for a token. -/
def FirebaseAuthMigrator.request (m : FirebaseAuthMigrator) (token : JSValue) : Action :=
  Action.xhrSend "POST" ("https://auth.firebase.com/v2/" ++ m.ns ++ "/sessions")
    "application/json" token

/-- The final storage is the initial one, or the initial one without the entry at `key`; either
way other keys read as before and `key` reads as before or as absent. -/
def Storage.Framed (key : String) (s s' : Storage) : Prop :=
  (s' = s ∨ s' = s.removeItem key) ∧
  (∀ k, k ≠ key → s'.getItem k = s.getItem k) ∧
  (s'.getItem key = s.getItem key ∨ s'.getItem key = none)

/-- A migrator for a sample app, used in worked examples. -/
def sampleMigrator : FirebaseAuthMigrator := FirebaseAuthMigrator.ofHost "myapp.firebaseio.com"

/-- A sample world: a stored legacy token `T1` beside an unrelated entry. -/
def sampleWorld : World :=
  { storage := [("other", "kept"), ("firebase:session::myapp", "\x7b\"token\":\"T1\"\x7d")]
    log := [] }

/-! ## Storage lemmas -/

theorem Storage.getItem_removeItem_self (s : Storage) (key : String) :
    (s.removeItem key).getItem key = none := by
  induction s with
  | nil => rfl
  | cons p rest ih =>
    obtain ⟨k, v⟩ := p
    by_cases h : k = key <;> simp [Storage.removeItem, Storage.getItem, h, ih]

theorem Storage.getItem_removeItem_of_ne (s : Storage) (key k : String) (hk : k ≠ key) :
    (s.removeItem key).getItem k = s.getItem k := by
  induction s with
  | nil => rfl
  | cons p rest ih =>
    obtain ⟨k', v⟩ := p
    by_cases h : k' = key
    · subst h
      have hk' : ¬ k' = k := fun e => hk e.symm
      simp [Storage.removeItem, Storage.getItem, hk', ih]
    · by_cases h2 : k' = k
      · subst h2
        simp [Storage.removeItem, Storage.getItem, h]
      · simp [Storage.removeItem, Storage.getItem, h, h2, ih]

theorem Storage.removeItem_removeItem (s : Storage) (key : String) :
    (s.removeItem key).removeItem key = s.removeItem key := by
  induction s with
  | nil => rfl
  | cons p rest ih =>
    obtain ⟨k, v⟩ := p
    by_cases h : k = key <;> simp [Storage.removeItem, h, ih]

theorem Storage.framed_refl (key : String) (s : Storage) : Storage.Framed key s s :=
  ⟨Or.inl rfl, fun _ _ => rfl, Or.inl rfl⟩

theorem Storage.framed_removeItem (key : String) (s : Storage) :
    Storage.Framed key s (s.removeItem key) :=
  ⟨Or.inr rfl, fun k hk => Storage.getItem_removeItem_of_ne s key k hk,
    Or.inr (Storage.getItem_removeItem_self s key)⟩

theorem Storage.framed_of_cases (key : String) (s s' : Storage)
    (h : s' = s ∨ s' = s.removeItem key) : Storage.Framed key s s' := by
  rcases h with h | h
  · rw [h]; exact Storage.framed_refl key s
  · rw [h]; exact Storage.framed_removeItem key s

/-! ## Lemmas on the request handlers -/

theorem foldl_handle_inProgress (m : FirebaseAuthMigrator) (pre : List XhrEvent) (x : Exchange)
    (hpre : pre.all XhrEvent.inProgress = true) : pre.foldl m.handle x = x := by
  induction pre generalizing x with
  | nil => rfl
  | cons e rest ih =>
    simp only [List.all_cons, Bool.and_eq_true] at hpre
    obtain ⟨he, hrest⟩ := hpre
    rw [List.foldl_cons]
    have hstep : m.handle x e = x := by
      cases e with
      | readystatechange readyState status response =>
        have hne : readyState ≠ DONE := by
          simpa [XhrEvent.inProgress] using he
        simp [FirebaseAuthMigrator.handle, FirebaseAuthMigrator.onreadystatechange, hne]
      | error => simp [XhrEvent.inProgress] at he
    rw [hstep]
    exact ih x hrest

theorem exchangeToken_append_done (m : FirebaseAuthMigrator) (token : JSValue) (w : World)
    (pre post : List XhrEvent) (hpre : pre.all XhrEvent.inProgress = true) :
    m.exchangeToken token (pre ++ post) w
      = post.foldl m.handle { promise := .pending, world := w.record (m.request token) } := by
  unfold FirebaseAuthMigrator.exchangeToken
  rw [List.foldl_append, foldl_handle_inProgress m pre _ hpre]
  rfl

/-! ## Claims about `exchangeToken` -/

/-- C2: when the exchange endpoint answers with status 400 or 403, `exchangeToken` fails with
`invalid-user-token`, the entry at `storageKey` is absent afterwards, and the removal is
recorded before the call of `reject`. -/
theorem exchangeToken_permanent_failure (m : FirebaseAuthMigrator) (token : JSValue) (w : World)
    (pre : List XhrEvent) (status : Nat) (response : JSValue)
    (hpre : pre.all XhrEvent.inProgress = true) (hstatus : status = 400 ∨ status = 403) :
    (m.exchangeToken token (pre ++ [.readystatechange DONE status response]) w).promise
        = .rejected invalidUserToken ∧
    invalidUserToken.code = "invalid-user-token" ∧
    (m.exchangeToken token (pre ++ [.readystatechange DONE status response]) w).world.storage
        = w.storage.removeItem m.storageKey ∧
    (m.exchangeToken token (pre ++ [.readystatechange DONE status response])
        w).world.storage.getItem m.storageKey = none ∧
    (m.exchangeToken token (pre ++ [.readystatechange DONE status response]) w).world.log
        = w.log ++ [m.request token, Action.removeItem m.storageKey,
            Action.rejectCalled invalidUserToken] := by
  rw [exchangeToken_append_done m token w pre _ hpre]
  have h200 : status ≠ 200 := by rcases hstatus with h | h <;> omega
  simp [FirebaseAuthMigrator.handle, FirebaseAuthMigrator.onreadystatechange, h200, hstatus,
    Exchange.reject, FirebaseAuthMigrator.clearLegacyAuth, World.record, invalidUserToken,
    Storage.getItem_removeItem_self]

/-- Worked instance of C2: a 403 answer for the sample app. -/
theorem exchangeToken_permanent_failure_witness :
    (sampleMigrator.exchangeToken (.str "T1") (xhrEvents (.response 403 .null))
        sampleWorld).promise = .rejected invalidUserToken ∧
    (sampleMigrator.exchangeToken (.str "T1") (xhrEvents (.response 403 .null))
        sampleWorld).world.storage = [("other", "kept")] ∧
    (sampleMigrator.exchangeToken (.str "T1") (xhrEvents (.response 403 .null))
        sampleWorld).world.log
      = [sampleMigrator.request (.str "T1"), Action.removeItem "firebase:session::myapp",
          Action.rejectCalled invalidUserToken] :=
  have h := exchangeToken_permanent_failure sampleMigrator (.str "T1") sampleWorld
    [.readystatechange 1 0 .null, .readystatechange 2 403 .null, .readystatechange 3 403 .null]
    403 .null (by decide) (Or.inr rfl)
  ⟨h.1, h.2.2.1, h.2.2.2.2⟩

/-- C3: when the exchange endpoint answers with a status other than 200, 400 and 403,
`exchangeToken` fails with `invalid-user-token` and storage is exactly as it was, so the entry
at `storageKey` reads as before; no removal is recorded. -/
theorem exchangeToken_other_status (m : FirebaseAuthMigrator) (token : JSValue) (w : World)
    (pre : List XhrEvent) (status : Nat) (response : JSValue)
    (hpre : pre.all XhrEvent.inProgress = true)
    (h200 : status ≠ 200) (h400 : status ≠ 400) (h403 : status ≠ 403) :
    (m.exchangeToken token (pre ++ [.readystatechange DONE status response]) w).promise
        = .rejected invalidUserToken ∧
    invalidUserToken.code = "invalid-user-token" ∧
    (m.exchangeToken token (pre ++ [.readystatechange DONE status response]) w).world.storage
        = w.storage ∧
    (m.exchangeToken token (pre ++ [.readystatechange DONE status response])
        w).world.storage.getItem m.storageKey = w.storage.getItem m.storageKey ∧
    (m.exchangeToken token (pre ++ [.readystatechange DONE status response]) w).world.log
        = w.log ++ [m.request token, Action.rejectCalled invalidUserToken] := by
  rw [exchangeToken_append_done m token w pre _ hpre]
  simp [FirebaseAuthMigrator.handle, FirebaseAuthMigrator.onreadystatechange, h200, h400, h403,
    Exchange.reject, World.record, invalidUserToken]

/-- Worked instance of C3: a 500 answer leaves the stored token of the sample app in place. -/
theorem exchangeToken_other_status_witness :
    (sampleMigrator.exchangeToken (.str "T1") (xhrEvents (.response 500 .null))
        sampleWorld).promise = .rejected invalidUserToken ∧
    (sampleMigrator.exchangeToken (.str "T1") (xhrEvents (.response 500 .null))
        sampleWorld).world.storage.getItem sampleMigrator.storageKey
      = some "\x7b\"token\":\"T1\"\x7d" :=
  have h := exchangeToken_other_status sampleMigrator (.str "T1") sampleWorld
    [.readystatechange 1 0 .null, .readystatechange 2 500 .null, .readystatechange 3 500 .null]
    500 .null (by decide) (by decide) (by decide) (by decide)
  ⟨h.1, h.2.2.2.1⟩

/-- The part of the missing-token behaviour that holds: when the exchange endpoint answers 200
with a response that is not `null` and whose `token` property reads as `undefined`,
`exchangeToken` fails with `network-request-failed` and storage is exactly as it was, so the
entry at `storageKey` reads as before. -/
theorem exchangeToken_missing_token (m : FirebaseAuthMigrator) (token : JSValue) (w : World)
    (pre : List XhrEvent) (response : JSValue)
    (hpre : pre.all XhrEvent.inProgress = true)
    (hmissing : response.getProp "token" = .ok .undefined) :
    (m.exchangeToken token (pre ++ [.readystatechange DONE 200 response]) w).promise
        = .rejected invalidResponse ∧
    invalidResponse.code = "network-request-failed" ∧
    (m.exchangeToken token (pre ++ [.readystatechange DONE 200 response]) w).world.storage
        = w.storage ∧
    (m.exchangeToken token (pre ++ [.readystatechange DONE 200 response])
        w).world.storage.getItem m.storageKey = w.storage.getItem m.storageKey ∧
    (m.exchangeToken token (pre ++ [.readystatechange DONE 200 response]) w).world.log
        = w.log ++ [m.request token, Action.rejectCalled invalidResponse] := by
  rw [exchangeToken_append_done m token w pre _ hpre]
  simp [FirebaseAuthMigrator.handle, FirebaseAuthMigrator.onreadystatechange, hmissing,
    JSValue.truthy, Exchange.reject, World.record, invalidResponse]

/-- Worked instance for the body `{}`, which parses to an object without a `token` property. -/
theorem exchangeToken_missing_token_witness :
    JSON.parse "\x7b\x7d" = .ok (.obj []) ∧
    (sampleMigrator.exchangeToken (.str "T1") (xhrEvents (.response 200 (.obj [])))
        sampleWorld).promise = .rejected invalidResponse ∧
    (sampleMigrator.exchangeToken (.str "T1") (xhrEvents (.response 200 (.obj [])))
        sampleWorld).world.storage.getItem sampleMigrator.storageKey
      = some "\x7b\"token\":\"T1\"\x7d" :=
  have h := exchangeToken_missing_token sampleMigrator (.str "T1") sampleWorld
    [.readystatechange 1 0 .null, .readystatechange 2 200 .null, .readystatechange 3 200 .null]
    (.obj []) (by decide) rfl
  ⟨rfl, h.1, h.2.2.2.1⟩

/-- C7, as the code behaves: a 200 answer whose response is `null` (an empty body, a body that
is not JSON, or the body `null`) has no `token` field, yet `exchangeToken` does not fail with
`network-request-failed`: reading `.token` from `null` throws inside the handler before
`reject` is reached, so the promise stays pending for ever and nothing but the request is
recorded. Storage is untouched, as the claim says. -/
theorem exchangeToken_null_response (m : FirebaseAuthMigrator) (token : JSValue) (w : World) :
    JSON.parse "null" = .ok .null ∧
    JSValue.null.getProp "token" = .error .typeError ∧
    (m.exchangeToken token (xhrEvents (.response 200 .null)) w).promise = .pending ∧
    (m.exchangeToken token (xhrEvents (.response 200 .null)) w).promise
      ≠ .rejected invalidResponse ∧
    (m.exchangeToken token (xhrEvents (.response 200 .null)) w).world.storage = w.storage ∧
    (m.exchangeToken token (xhrEvents (.response 200 .null)) w).world.log
      = w.log ++ [m.request token] := by
  refine ⟨rfl, rfl, rfl, ?_, rfl, rfl⟩
  have h : (m.exchangeToken token (xhrEvents (.response 200 .null)) w).promise
      = .pending := rfl
  rw [h]
  intro hc
  cases hc

/-- C8, as the code behaves: on a transport failure the `readystatechange` handler runs first,
sees `DONE` with status 0 and rejects with `invalid-user-token`; the later `reject` of the
`error` handler finds the promise settled. Storage is untouched. -/
theorem exchangeToken_networkError (m : FirebaseAuthMigrator) (token : JSValue) (w : World) :
    (m.exchangeToken token (xhrEvents .networkError) w).promise = .rejected invalidUserToken ∧
    (m.exchangeToken token (xhrEvents .networkError) w).promise ≠ .rejected unableToVerify ∧
    (m.exchangeToken token (xhrEvents .networkError) w).world.storage = w.storage ∧
    (m.exchangeToken token (xhrEvents .networkError) w).world.log
      = w.log ++ [m.request token, Action.rejectCalled invalidUserToken,
          Action.rejectCalled unableToVerify] := by
  refine ⟨rfl, ?_, rfl, ?_⟩
  · have h : (m.exchangeToken token (xhrEvents .networkError) w).promise
        = .rejected invalidUserToken := rfl
    rw [h]
    intro hc
    injection hc with hc
    exact absurd hc (by decide)
  · simp [FirebaseAuthMigrator.exchangeToken, xhrEvents, FirebaseAuthMigrator.handle,
      FirebaseAuthMigrator.onreadystatechange, onerror, Exchange.reject, World.record, DONE,
      FirebaseAuthMigrator.request, invalidUserToken, unableToVerify]

/-! ## Claims about `getLegacyToken` and `hasLegacyAuth` -/

theorem JSON.parse_empty : JSON.parse "" = .error .parseError := rfl

theorem getLegacyToken_of_none (m : FirebaseAuthMigrator) (w : World)
    (h : w.storage.getItem m.storageKey = none) : m.getLegacyToken w = (.null, w) := by
  simp [FirebaseAuthMigrator.getLegacyToken, h]

theorem getLegacyToken_of_readToken_ok (m : FirebaseAuthMigrator) (w : World) (s : String)
    (v : JSValue) (hs : w.storage.getItem m.storageKey = some s) (hne : s ≠ "")
    (hv : readToken s = .ok v) : m.getLegacyToken w = (v, w) := by
  simp [FirebaseAuthMigrator.getLegacyToken, hs, hne, hv]

theorem getLegacyToken_of_readToken_error (m : FirebaseAuthMigrator) (w : World) (s : String)
    (e : JSException) (hs : w.storage.getItem m.storageKey = some s) (hne : s ≠ "")
    (hv : readToken s = .error e) : m.getLegacyToken w = (.null, m.clearLegacyAuth w) := by
  simp [FirebaseAuthMigrator.getLegacyToken, hs, hne, hv]

theorem ne_empty_of_parse_ok (s : String) (v : JSValue) (h : JSON.parse s = .ok v) :
    s ≠ "" := by
  intro hs
  rw [hs, JSON.parse_empty] at h
  cases h

/-- C6, the claim as written fails: the entries `{}` and `123` are valid JSON without a `token`
field, `getLegacyToken` returns `undefined` for them and leaves the entry where it is; the
empty string, which is no JSON text, is left in place as well. -/
theorem getLegacyToken_keeps_shape_invalid_entry :
    JSON.parse "\x7b\x7d" = .ok (.obj []) ∧
    (sampleMigrator.getLegacyToken
      ⟨[("firebase:session::myapp", "\x7b\x7d")], []⟩).1 = .undefined ∧
    (sampleMigrator.getLegacyToken
      ⟨[("firebase:session::myapp", "\x7b\x7d")], []⟩).2.storage.getItem
        sampleMigrator.storageKey = some "\x7b\x7d" ∧
    JSON.parse "123" = .ok (.num ⟨false, 123, 0⟩) ∧
    (sampleMigrator.getLegacyToken ⟨[("firebase:session::myapp", "123")], []⟩).1 = .undefined ∧
    (sampleMigrator.getLegacyToken ⟨[("firebase:session::myapp", "123")], []⟩).2.storage.getItem
        sampleMigrator.storageKey = some "123" ∧
    JSON.parse "" = .error .parseError ∧
    (sampleMigrator.getLegacyToken ⟨[("firebase:session::myapp", "")], []⟩).2.storage.getItem
        sampleMigrator.storageKey = some "" :=
  ⟨rfl, rfl, rfl, rfl, rfl, rfl, rfl, rfl⟩

/-- C6 amended: for an entry `s` at `storageKey`, (1) if `s` is non-empty and is not parseable
as JSON or parses to `null`, `getLegacyToken` returns `null`, deletes the entry, and a second
call returns `null` again and changes nothing; (2) if `s` is valid JSON whose value is not
`null` and has no `token` property, `getLegacyToken` returns `undefined` and leaves the entry
in place, and so does a second call; (3) if `s` is the empty string, `getLegacyToken` returns
`null` and leaves the entry in place. -/
theorem getLegacyToken_malformed (m : FirebaseAuthMigrator) (w : World) (s : String)
    (hs : w.storage.getItem m.storageKey = some s) :
    (s ≠ "" → ((∃ e, JSON.parse s = .error e) ∨ JSON.parse s = .ok .null) →
      (m.getLegacyToken w).1 = .null ∧
      (m.getLegacyToken w).2.storage = w.storage.removeItem m.storageKey ∧
      (m.getLegacyToken w).2.storage.getItem m.storageKey = none ∧
      m.getLegacyToken (m.getLegacyToken w).2 = (.null, (m.getLegacyToken w).2)) ∧
    (∀ v, JSON.parse s = .ok v → v.getProp "token" = .ok .undefined →
      (m.getLegacyToken w).1 = .undefined ∧
      (m.getLegacyToken w).2 = w ∧
      m.getLegacyToken (m.getLegacyToken w).2 = (.undefined, w)) ∧
    (s = "" → (m.getLegacyToken w).1 = .null ∧ (m.getLegacyToken w).2 = w) := by
  refine ⟨?_, ?_, ?_⟩
  · intro hne hbad
    have herr : ∃ e, readToken s = .error e := by
      rcases hbad with ⟨e, he⟩ | hnull
      · exact ⟨e, by simp [readToken, he]⟩
      · exact ⟨.typeError, by simp [readToken, hnull, JSValue.getProp]⟩
    obtain ⟨e, he⟩ := herr
    have h1 := getLegacyToken_of_readToken_error m w s e hs hne he
    have hgone : (m.clearLegacyAuth w).storage.getItem m.storageKey = none := by
      simp [FirebaseAuthMigrator.clearLegacyAuth, Storage.getItem_removeItem_self]
    rw [h1]
    exact ⟨rfl, rfl, hgone, getLegacyToken_of_none m _ hgone⟩
  · intro v hv hprop
    have hne := ne_empty_of_parse_ok s v hv
    have hread : readToken s = .ok .undefined := by simp [readToken, hv, hprop]
    have h1 := getLegacyToken_of_readToken_ok m w s .undefined hs hne hread
    rw [h1]
    exact ⟨rfl, rfl, h1⟩
  · intro hempty
    subst hempty
    simp [FirebaseAuthMigrator.getLegacyToken, hs]

/-- Worked instance of C6 amended: the unparsable entry `not json` is deleted. -/
theorem getLegacyToken_malformed_witness :
    JSON.parse "not json" = .error .parseError ∧
    (sampleMigrator.getLegacyToken ⟨[("firebase:session::myapp", "not json")], []⟩).1 = .null ∧
    (sampleMigrator.getLegacyToken
      ⟨[("firebase:session::myapp", "not json")], []⟩).2.storage.getItem
        sampleMigrator.storageKey = none :=
  have h := (getLegacyToken_malformed sampleMigrator
    ⟨[("firebase:session::myapp", "not json")], []⟩ "not json" rfl).1
      (by decide) (Or.inl ⟨.parseError, rfl⟩)
  ⟨rfl, h.1, h.2.2.1⟩

/-- C9, the claim as written fails: with the entry `{"token": ""}` the call `getLegacyToken()`
returns the empty string, a present value, while `hasLegacyAuth()` is false. -/
theorem hasLegacyAuth_false_for_empty_token :
    JSON.parse "\x7b\"token\": \"\"\x7d" = .ok (.obj [("token", .str "")]) ∧
    (sampleMigrator.getLegacyToken
      ⟨[("firebase:session::myapp", "\x7b\"token\": \"\"\x7d")], []⟩).1 = .str "" ∧
    (JSValue.str "").isAbsent = false ∧
    (sampleMigrator.hasLegacyAuth
      ⟨[("firebase:session::myapp", "\x7b\"token\": \"\"\x7d")], []⟩).1 = false :=
  ⟨rfl, rfl, rfl, rfl⟩

/-- C9 amended: `hasLegacyAuth()` is true if and only if the value `getLegacyToken()` returns
on the same state is truthy; a true answer implies a present value, not the other way round.
With no entry at `storageKey`, `getLegacyToken()` returns `null` and `hasLegacyAuth()` is
false. With an entry `{"token": t}` for a string `t`, `getLegacyToken()` returns `t`, and
`hasLegacyAuth()` is true exactly when `t` is not the empty string. -/
theorem hasLegacyAuth_iff_truthy (m : FirebaseAuthMigrator) (w : World) :
    ((m.hasLegacyAuth w).1 = true ↔ (m.getLegacyToken w).1.truthy = true) ∧
    (m.hasLegacyAuth w).2 = (m.getLegacyToken w).2 ∧
    ((m.hasLegacyAuth w).1 = true → (m.getLegacyToken w).1.isAbsent = false) ∧
    (w.storage.getItem m.storageKey = none →
      (m.getLegacyToken w).1 = .null ∧ (m.hasLegacyAuth w).1 = false) ∧
    (∀ s props t, w.storage.getItem m.storageKey = some s →
      JSON.parse s = .ok (.obj props) → lookupProp "token" props = .str t →
      (m.getLegacyToken w).1 = .str t ∧ ((m.hasLegacyAuth w).1 = true ↔ t ≠ "")) := by
  refine ⟨Iff.rfl, rfl, ?_, ?_, ?_⟩
  · intro h
    have ht : (m.getLegacyToken w).1.truthy = true := h
    cases hv : (m.getLegacyToken w).1 <;> simp_all [JSValue.truthy, JSValue.isAbsent]
  · intro hnone
    have h1 := getLegacyToken_of_none m w hnone
    simp [FirebaseAuthMigrator.hasLegacyAuth, h1, JSValue.truthy]
  · intro s props t hs hparse htok
    have hne := ne_empty_of_parse_ok s _ hparse
    have hread : readToken s = .ok (.str t) := by
      simp [readToken, hparse, JSValue.getProp, htok]
    have h1 := getLegacyToken_of_readToken_ok m w s _ hs hne hread
    simp [FirebaseAuthMigrator.hasLegacyAuth, h1, JSValue.truthy]

/-- Worked instance of C9 amended on the sample world, whose stored token is `T1`. -/
theorem hasLegacyAuth_iff_truthy_witness :
    (sampleMigrator.getLegacyToken sampleWorld).1 = .str "T1" ∧
    (sampleMigrator.hasLegacyAuth sampleWorld).1 = true :=
  have h := (hasLegacyAuth_iff_truthy sampleMigrator sampleWorld).2.2.2.2
    "\x7b\"token\":\"T1\"\x7d" [("token", .str "T1")] "T1" rfl rfl rfl
  ⟨h.1, h.2.mpr (by decide)⟩

/-! ## Claims about `migrate` -/

theorem getLegacyToken_world_of_truthy (m : FirebaseAuthMigrator) (w : World)
    (h : (m.getLegacyToken w).1.truthy = true) : (m.getLegacyToken w).2 = w := by
  unfold FirebaseAuthMigrator.getLegacyToken at h ⊢
  cases hget : w.storage.getItem m.storageKey with
  | none => rfl
  | some s =>
    by_cases hs : s = ""
    · simp [hs]
    · cases hread : readToken s with
      | ok v => simp [hs, hread]
      | error e => simp [hget, hs, hread, JSValue.truthy] at h

theorem getLegacyToken_fst_congr (m : FirebaseAuthMigrator) (w w' : World)
    (h : w'.storage = w.storage) : (m.getLegacyToken w').1 = (m.getLegacyToken w).1 := by
  unfold FirebaseAuthMigrator.getLegacyToken
  rw [h]
  cases w.storage.getItem m.storageKey with
  | none => rfl
  | some s =>
    by_cases hs : s = ""
    · simp [hs]
    · cases hread : readToken s <;> simp [hs, hread]

theorem exchangeToken_response_200 (m : FirebaseAuthMigrator) (token : JSValue) (w : World)
    (body newToken : JSValue) (hbody : body.getProp "token" = .ok newToken)
    (htruthy : newToken.truthy = true) :
    m.exchangeToken token (xhrEvents (.response 200 body)) w
      = { promise := .fulfilled newToken
          world := (w.record (m.request token)).record (Action.resolveCalled newToken) } := by
  simp [FirebaseAuthMigrator.exchangeToken, xhrEvents, FirebaseAuthMigrator.handle,
    FirebaseAuthMigrator.onreadystatechange, DONE, hbody, htruthy, Exchange.resolve,
    FirebaseAuthMigrator.request]

theorem exchangeToken_storage_of_fulfilled (m : FirebaseAuthMigrator) (token : JSValue)
    (w : World) (xhr : XhrOutcome) (t : JSValue)
    (h : (m.exchangeToken token (xhrEvents xhr) w).promise = .fulfilled t) :
    (m.exchangeToken token (xhrEvents xhr) w).world.storage = w.storage := by
  cases xhr with
  | response status body =>
    by_cases h200 : status = 200
    · subst h200
      cases hprop : body.getProp "token" with
      | error e =>
        simp [FirebaseAuthMigrator.exchangeToken, xhrEvents, FirebaseAuthMigrator.handle,
          FirebaseAuthMigrator.onreadystatechange, DONE, hprop, World.record]
      | ok newToken =>
        by_cases ht : newToken.truthy = true
        · rw [exchangeToken_response_200 m token w body newToken hprop ht]
          rfl
        · simp [FirebaseAuthMigrator.exchangeToken, xhrEvents, FirebaseAuthMigrator.handle,
            FirebaseAuthMigrator.onreadystatechange, DONE, hprop, ht, Exchange.reject,
            World.record]
    · by_cases hperm : status = 400 ∨ status = 403 <;>
        simp [FirebaseAuthMigrator.exchangeToken, xhrEvents, FirebaseAuthMigrator.handle,
          FirebaseAuthMigrator.onreadystatechange, DONE, h200, hperm, Exchange.reject] at h
  | networkError =>
    simp [FirebaseAuthMigrator.exchangeToken, xhrEvents, FirebaseAuthMigrator.handle,
      FirebaseAuthMigrator.onreadystatechange, DONE, onerror, Exchange.reject] at h
  | noAnswer =>
    simp [FirebaseAuthMigrator.exchangeToken, xhrEvents, FirebaseAuthMigrator.handle,
      FirebaseAuthMigrator.onreadystatechange, DONE] at h

/-- C4: when the hosting client reports a signed-in user `U`, whatever storage holds,
`migrate()` resolves with `U`, its only step is the removal of the entry at `storageKey` (no
request is sent, no sign-in is made), and afterwards storage has no entry at `storageKey`. -/
theorem migrate_signed_in (m : FirebaseAuthMigrator) (U : User) (xhr : XhrOutcome)
    (signIn : JSValue → SignInOutcome) (w : World) :
    (m.migrate (some U) xhr signIn w).promise = .fulfilled (some U) ∧
    (m.migrate (some U) xhr signIn w).world.log = w.log ++ [Action.removeItem m.storageKey] ∧
    (m.migrate (some U) xhr signIn w).world.storage = w.storage.removeItem m.storageKey ∧
    (m.migrate (some U) xhr signIn w).world.storage.getItem m.storageKey = none :=
  ⟨rfl, rfl, rfl, Storage.getItem_removeItem_self w.storage m.storageKey⟩

/-- C1, the claim as written fails: when the endpoint answers 200 with the token `""`, and the
client would accept that token, `migrate()` is rejected with `network-request-failed`, no
sign-in is made and the entry stays in storage. -/
theorem migrate_fails_for_empty_exchanged_token :
    (sampleMigrator.getLegacyToken sampleWorld).1 = .str "T1" ∧
    (JSValue.obj [("token", .str "")]).getProp "token" = .ok (.str "") ∧
    (sampleMigrator.migrate none (.response 200 (.obj [("token", .str "")]))
      (fun _ => .resolved ⟨"U"⟩) sampleWorld).promise = .rejected invalidResponse ∧
    (sampleMigrator.migrate none (.response 200 (.obj [("token", .str "")]))
      (fun _ => .resolved ⟨"U"⟩) sampleWorld).world.log
        = [sampleMigrator.request (.str "T1"), Action.rejectCalled invalidResponse] ∧
    (sampleMigrator.migrate none (.response 200 (.obj [("token", .str "")]))
      (fun _ => .resolved ⟨"U"⟩) sampleWorld).world.storage.getItem sampleMigrator.storageKey
        = some "\x7b\"token\":\"T1\"\x7d" :=
  ⟨rfl, rfl, rfl, rfl, rfl⟩

/-- C1 amended: when the entry at `storageKey` is a JSON object whose `token` is a non-empty
string `T1`, no user is signed in, the endpoint answers 200 with a non-empty token `T2` and
`signInWithCustomToken(T2)` succeeds with user `U`, then `migrate()` resolves with `U`, the
request carried `T1`, sign-in was invoked once, with `T2`, and afterwards storage has no entry
at `storageKey`. -/
theorem migrate_success (m : FirebaseAuthMigrator) (w : World) (entry : String)
    (props : List (String × JSValue)) (T1 T2 : String) (body : JSValue) (U : User)
    (signIn : JSValue → SignInOutcome)
    (hentry : w.storage.getItem m.storageKey = some entry)
    (hparse : JSON.parse entry = .ok (.obj props))
    (htoken : lookupProp "token" props = .str T1) (hT1 : T1 ≠ "")
    (hbody : body.getProp "token" = .ok (.str T2)) (hT2 : T2 ≠ "")
    (hsign : signIn (.str T2) = .resolved U) :
    (m.migrate none (.response 200 body) signIn w).promise = .fulfilled (some U) ∧
    (m.migrate none (.response 200 body) signIn w).world.log
      = w.log ++ [m.request (.str T1), Action.resolveCalled (.str T2),
          Action.signInWithCustomToken (.str T2), Action.removeItem m.storageKey] ∧
    (m.migrate none (.response 200 body) signIn w).world.storage
      = w.storage.removeItem m.storageKey ∧
    (m.migrate none (.response 200 body) signIn w).world.storage.getItem m.storageKey
      = none := by
  have hne := ne_empty_of_parse_ok entry _ hparse
  have hread : readToken entry = .ok (.str T1) := by
    simp [readToken, hparse, JSValue.getProp, htoken]
  have hget := getLegacyToken_of_readToken_ok m w entry _ hentry hne hread
  have ht1 : (JSValue.str T1).truthy = true := by simp [JSValue.truthy, hT1]
  have ht2 : (JSValue.str T2).truthy = true := by simp [JSValue.truthy, hT2]
  have hx := exchangeToken_response_200 m (.str T1) w body (.str T2) hbody ht2
  simp [FirebaseAuthMigrator.migrate, hget, ht1, hx, hsign,
    FirebaseAuthMigrator.clearLegacyAuth, World.record, Storage.getItem_removeItem_self]

/-- Worked instance of C1 amended: stored token `T1`, exchanged token `T2`, user `U`. -/
theorem migrate_success_witness :
    (sampleMigrator.migrate none (.response 200 (.obj [("token", .str "T2")]))
      (fun t => match t with
        | .str "T2" => .resolved ⟨"U"⟩
        | _ => .rejected ⟨"invalid-custom-token", ""⟩) sampleWorld).promise
        = .fulfilled (some ⟨"U"⟩) ∧
    (sampleMigrator.migrate none (.response 200 (.obj [("token", .str "T2")]))
      (fun t => match t with
        | .str "T2" => .resolved ⟨"U"⟩
        | _ => .rejected ⟨"invalid-custom-token", ""⟩) sampleWorld).world.storage
        = [("other", "kept")] :=
  have h := migrate_success sampleMigrator sampleWorld "\x7b\"token\":\"T1\"\x7d"
    [("token", .str "T1")] "T1" "T2" (.obj [("token", .str "T2")]) ⟨"U"⟩
    (fun t => match t with
      | .str "T2" => .resolved ⟨"U"⟩
      | _ => .rejected ⟨"invalid-custom-token", ""⟩)
    rfl rfl rfl (by decide) rfl (by decide) rfl
  ⟨h.1, h.2.2.1⟩

/-- C5: in a run of `migrate()` that reaches the exchange step (no signed-in user, a truthy
legacy token), if `exchangeToken` fails then `migrate()` fails with the same error and leaves
the world `exchangeToken` left; if `exchangeToken` succeeds and `signInWithCustomToken` fails
then `migrate()` fails with the sign-in error and storage is as it was before `migrate()`, so
the legacy token is still stored unchanged. -/
theorem migrate_failure_propagates (m : FirebaseAuthMigrator) (w : World) (xhr : XhrOutcome)
    (signIn : JSValue → SignInOutcome)
    (htoken : (m.getLegacyToken w).1.truthy = true) :
    (∀ e, (m.exchangeToken (m.getLegacyToken w).1 (xhrEvents xhr)
          (m.getLegacyToken w).2).promise = .rejected e →
      (m.migrate none xhr signIn w).promise = .rejected e ∧
      (m.migrate none xhr signIn w).world
        = (m.exchangeToken (m.getLegacyToken w).1 (xhrEvents xhr)
            (m.getLegacyToken w).2).world) ∧
    (∀ t e, (m.exchangeToken (m.getLegacyToken w).1 (xhrEvents xhr)
          (m.getLegacyToken w).2).promise = .fulfilled t →
      signIn t = .rejected e →
      (m.migrate none xhr signIn w).promise = .rejected e ∧
      (m.migrate none xhr signIn w).world.storage = w.storage ∧
      (m.migrate none xhr signIn w).world.storage.getItem m.storageKey
        = w.storage.getItem m.storageKey ∧
      (m.getLegacyToken (m.migrate none xhr signIn w).world).1 = (m.getLegacyToken w).1) := by
  constructor
  · intro e he
    simp [FirebaseAuthMigrator.migrate, htoken, he]
  · intro t e ht hsign
    have hw := getLegacyToken_world_of_truthy m w htoken
    have hst := (exchangeToken_storage_of_fulfilled m _ _ xhr t ht).trans
      (congrArg World.storage hw)
    have hfinal : (m.migrate none xhr signIn w).world.storage = w.storage := by
      simp [FirebaseAuthMigrator.migrate, htoken, ht, hsign, World.record, hst]
    refine ⟨?_, hfinal, by rw [hfinal], ?_⟩
    · simp [FirebaseAuthMigrator.migrate, htoken, ht, hsign]
    · exact getLegacyToken_fst_congr m w _ hfinal

/-- Worked instance of C5: the exchange gives `T2`, the client rejects it, and the stored token
of the sample app is still there. -/
theorem migrate_failure_propagates_witness :
    (sampleMigrator.getLegacyToken sampleWorld).1.truthy = true ∧
    (sampleMigrator.migrate none (.response 200 (.obj [("token", .str "T2")]))
      (fun _ => .rejected ⟨"invalid-custom-token", "rejected"⟩) sampleWorld).promise
        = .rejected ⟨"invalid-custom-token", "rejected"⟩ ∧
    (sampleMigrator.migrate none (.response 200 (.obj [("token", .str "T2")]))
      (fun _ => .rejected ⟨"invalid-custom-token", "rejected"⟩) sampleWorld).world.storage
        = sampleWorld.storage :=
  have h := (migrate_failure_propagates sampleMigrator sampleWorld
    (.response 200 (.obj [("token", .str "T2")]))
    (fun _ => .rejected ⟨"invalid-custom-token", "rejected"⟩) rfl).2
      (.str "T2") ⟨"invalid-custom-token", "rejected"⟩ rfl rfl
  ⟨rfl, h.1, h.2.1⟩

/-! ## The frame of the storage effects -/

theorem clearLegacyAuth_storage_cases (m : FirebaseAuthMigrator) (w : World) (s : Storage)
    (h : w.storage = s ∨ w.storage = s.removeItem m.storageKey) :
    (m.clearLegacyAuth w).storage = s.removeItem m.storageKey := by
  rcases h with h | h
  · simp [FirebaseAuthMigrator.clearLegacyAuth, h]
  · simp [FirebaseAuthMigrator.clearLegacyAuth, h, Storage.removeItem_removeItem]

theorem getLegacyToken_storage_cases (m : FirebaseAuthMigrator) (w : World) :
    (m.getLegacyToken w).2.storage = w.storage ∨
    (m.getLegacyToken w).2.storage = w.storage.removeItem m.storageKey := by
  unfold FirebaseAuthMigrator.getLegacyToken
  cases w.storage.getItem m.storageKey with
  | none => exact Or.inl rfl
  | some s =>
    by_cases hs : s = ""
    · simp [hs]
    · cases hread : readToken s with
      | ok v => simp [hs, hread]
      | error e => simp [hs, hread, FirebaseAuthMigrator.clearLegacyAuth]

theorem handle_storage_cases (m : FirebaseAuthMigrator) (x : Exchange) (e : XhrEvent)
    (s : Storage)
    (h : x.world.storage = s ∨ x.world.storage = s.removeItem m.storageKey) :
    (m.handle x e).world.storage = s ∨
    (m.handle x e).world.storage = s.removeItem m.storageKey := by
  cases e with
  | error => simpa [FirebaseAuthMigrator.handle, onerror, Exchange.reject, World.record] using h
  | readystatechange readyState status response =>
    simp only [FirebaseAuthMigrator.handle, FirebaseAuthMigrator.onreadystatechange]
    by_cases hdone : readyState ≠ DONE
    · simpa [hdone] using h
    · by_cases h200 : status ≠ 200
      · by_cases hperm : status = 400 ∨ status = 403
        · right
          simpa [hdone, h200, hperm, Exchange.reject, World.record] using
            clearLegacyAuth_storage_cases m x.world s h
        · simpa [hdone, h200, hperm, Exchange.reject, World.record] using h
      · cases hprop : response.getProp "token" with
        | error err => simpa [hdone, h200, hprop] using h
        | ok newToken =>
          by_cases ht : newToken.truthy = true
          · simpa [hdone, h200, hprop, ht, Exchange.resolve, World.record] using h
          · simpa [hdone, h200, hprop, ht, Exchange.reject, World.record] using h

theorem foldl_handle_storage_cases (m : FirebaseAuthMigrator) (events : List XhrEvent)
    (x : Exchange) (s : Storage)
    (h : x.world.storage = s ∨ x.world.storage = s.removeItem m.storageKey) :
    (events.foldl m.handle x).world.storage = s ∨
    (events.foldl m.handle x).world.storage = s.removeItem m.storageKey := by
  induction events generalizing x with
  | nil => exact h
  | cons e rest ih => exact ih (m.handle x e) (handle_storage_cases m x e s h)

theorem exchangeToken_storage_cases (m : FirebaseAuthMigrator) (token : JSValue)
    (events : List XhrEvent) (w : World) :
    (m.exchangeToken token events w).world.storage = w.storage ∨
    (m.exchangeToken token events w).world.storage = w.storage.removeItem m.storageKey :=
  foldl_handle_storage_cases m events _ w.storage (Or.inl rfl)

theorem migrate_storage_cases (m : FirebaseAuthMigrator) (currentUser : Option User)
    (xhr : XhrOutcome) (signIn : JSValue → SignInOutcome) (w : World) :
    (m.migrate currentUser xhr signIn w).world.storage = w.storage ∨
    (m.migrate currentUser xhr signIn w).world.storage
      = w.storage.removeItem m.storageKey := by
  cases currentUser with
  | some user => exact Or.inr rfl
  | none =>
    by_cases htoken : (m.getLegacyToken w).1.truthy = true
    · have hw := getLegacyToken_world_of_truthy m w htoken
      have hx := exchangeToken_storage_cases m (m.getLegacyToken w).1 (xhrEvents xhr) w
      simp only [FirebaseAuthMigrator.migrate, htoken, hw, Bool.not_true, Bool.false_eq_true,
        if_false]
      cases hp : (m.exchangeToken (m.getLegacyToken w).1 (xhrEvents xhr) w).promise with
      | pending => simpa [hp] using hx
      | rejected e => simpa [hp] using hx
      | fulfilled newToken =>
        cases hsign : signIn newToken with
        | resolved user =>
          right
          simpa [hp, hsign, World.record, FirebaseAuthMigrator.clearLegacyAuth] using
            clearLegacyAuth_storage_cases m _ w.storage hx
        | rejected e => simpa [hp, hsign, World.record] using hx
        | unsettled => simpa [hp, hsign, World.record] using hx
    · simpa [FirebaseAuthMigrator.migrate, htoken] using getLegacyToken_storage_cases m w

/-- C10: each operation of the migrator (`getLegacyToken`, `hasLegacyAuth`, `clearLegacyAuth`,
`exchangeToken` on any sequence of request events, `migrate` for any signed-in state, request
outcome and sign-in behaviour) leaves storage either as it was or as it was without the entry
at `storageKey`: every other key reads as before, and `storageKey` reads as before or as
absent. -/
theorem storage_frame (m : FirebaseAuthMigrator) (w : World) (token : JSValue)
    (events : List XhrEvent) (currentUser : Option User) (xhr : XhrOutcome)
    (signIn : JSValue → SignInOutcome) :
    Storage.Framed m.storageKey w.storage (m.getLegacyToken w).2.storage ∧
    Storage.Framed m.storageKey w.storage (m.hasLegacyAuth w).2.storage ∧
    Storage.Framed m.storageKey w.storage (m.clearLegacyAuth w).storage ∧
    Storage.Framed m.storageKey w.storage (m.exchangeToken token events w).world.storage ∧
    Storage.Framed m.storageKey w.storage (m.migrate currentUser xhr signIn w).world.storage :=
  ⟨Storage.framed_of_cases _ _ _ (getLegacyToken_storage_cases m w),
   Storage.framed_of_cases _ _ _ (getLegacyToken_storage_cases m w),
   Storage.framed_removeItem _ _,
   Storage.framed_of_cases _ _ _ (exchangeToken_storage_cases m token events w),
   Storage.framed_of_cases _ _ _ (migrate_storage_cases m currentUser xhr signIn w)⟩

/-! ## The recursion depth of `JSON.parse` -/

theorem skipWs_length_le (cs : List Char) : (skipWs cs).length ≤ cs.length := by
  induction cs with
  | nil => simp [skipWs]
  | cons c cs ih =>
    unfold skipWs
    split
    · simp only [List.length_cons]; omega
    · exact Nat.le_refl _

theorem expectLit_length_le (lit cs r : List Char) (h : expectLit lit cs = some r) :
    r.length ≤ cs.length := by
  induction lit generalizing cs with
  | nil => simp [expectLit] at h; subst h; exact Nat.le_refl _
  | cons l ls ih =>
    cases cs with
    | nil => simp [expectLit] at h
    | cons c cs =>
      simp only [expectLit] at h
      split at h
      · have := ih cs h
        simp only [List.length_cons]; omega
      · cases h

theorem takeDigits_length (cs : List Char) :
    (takeDigits cs).1.length + (takeDigits cs).2.length = cs.length := by
  induction cs with
  | nil => simp [takeDigits]
  | cons c cs ih =>
    unfold takeDigits
    split
    · simp only [List.length_cons]; omega
    · simp

theorem parseString_length_lt_aux : ∀ (n : Nat) (cs acc : List Char) (hi : Option Nat)
    (s : String) (r : List Char), cs.length ≤ n → parseString cs acc hi = some (s, r) →
    r.length < cs.length := by
  intro n
  induction n with
  | zero =>
    intro cs acc hi s r hn h
    cases cs with
    | nil => simp [parseString] at h
    | cons c cs => simp at hn
  | succ n ih =>
    intro cs acc hi s r hn h
    cases cs with
    | nil => simp [parseString] at h
    | cons c cs =>
      simp only [List.length_cons] at hn ⊢
      unfold parseString at h
      split at h
      · simp only [Option.some.injEq, Prod.mk.injEq] at h
        obtain ⟨_, rfl⟩ := h
        omega
      · split at h
        · split at h
          · cases h
          · split at h
            · split at h
              · split at h
                · have := ih _ _ _ _ _ (by simp only [List.length_cons] at hn; omega) h
                  simp only [List.length_cons]
                  omega
                · cases h
              · cases h
            · split at h
              · have := ih _ _ _ _ _ (by simp only [List.length_cons] at hn; omega) h
                simp only [List.length_cons]
                omega
              · cases h
        · split at h
          · cases h
          · have := ih _ _ _ _ _ (by omega) h
            omega

theorem parseString_length_lt (cs acc : List Char) (hi : Option Nat) (s : String)
    (r : List Char) (h : parseString cs acc hi = some (s, r)) : r.length < cs.length :=
  parseString_length_lt_aux cs.length cs acc hi s r (Nat.le_refl _) h

theorem takeDigits_rest_le (cs : List Char) : (takeDigits cs).2.length ≤ cs.length := by
  have := takeDigits_length cs
  omega

theorem takeDigits_rest_lt (cs : List Char) (h : (takeDigits cs).1 ≠ []) :
    (takeDigits cs).2.length < cs.length := by
  have := takeDigits_length cs
  have : 0 < (takeDigits cs).1.length := List.length_pos.mpr h
  omega

theorem parseFraction_length_le (cs : List Char) (fs : List Nat) (r : List Char)
    (h : parseFraction cs = some (fs, r)) : r.length ≤ cs.length := by
  cases cs with
  | nil =>
    simp only [parseFraction, Option.some.injEq, Prod.mk.injEq] at h
    rw [← h.2]
  | cons c r0 =>
    simp only [parseFraction] at h
    by_cases hc : c = '.'
    · simp only [hc, if_true] at h
      have hle := takeDigits_rest_le r0
      split at h
      · cases h
      · rename_i ds r1 _ htd
        simp only [Option.some.injEq, Prod.mk.injEq] at h
        rw [htd] at hle
        rw [← h.2]
        simp only [List.length_cons]
        simp only at hle
        omega
    · simp only [hc, if_false, Option.some.injEq, Prod.mk.injEq] at h
      rw [← h.2]

theorem parseExponent_length_le (cs : List Char) (e : Int) (r : List Char)
    (h : parseExponent cs = some (e, r)) : r.length ≤ cs.length := by
  cases cs with
  | nil =>
    simp only [parseExponent, Option.some.injEq, Prod.mk.injEq] at h
    rw [← h.2]
  | cons c r0 =>
    simp only [parseExponent] at h
    by_cases hc : c = 'e' ∨ c = 'E'
    · simp only [hc, if_true] at h
      cases r0 with
      | nil => cases h
      | cons s r1 =>
        simp only at h
        have hle1 := takeDigits_rest_le r1
        have hle0 := takeDigits_rest_le (s :: r1)
        simp only [List.length_cons] at hle0 ⊢
        split at h
        · split at h
          · cases h
          · rename_i ds r2 _ htd
            simp only [Option.some.injEq, Prod.mk.injEq] at h
            rw [htd] at hle1
            rw [← h.2]
            simp only at hle1
            omega
        · split at h
          · split at h
            · cases h
            · rename_i ds r2 _ htd
              simp only [Option.some.injEq, Prod.mk.injEq] at h
              rw [htd] at hle1
              rw [← h.2]
              simp only at hle1
              omega
          · split at h
            · cases h
            · rename_i ds r2 _ htd
              simp only [Option.some.injEq, Prod.mk.injEq] at h
              rw [htd] at hle0
              rw [← h.2]
              simp only at hle0
              omega
    · simp only [hc, if_false, Option.some.injEq, Prod.mk.injEq] at h
      rw [← h.2]

theorem dropSign_length_le (cs : List Char) : (dropSign cs).2.length ≤ cs.length := by
  cases cs with
  | nil => simp [dropSign]
  | cons c r =>
    simp only [dropSign]
    split
    · simp
    · exact Nat.le_refl _

theorem parseNumber_length_lt (cs : List Char) (n : JSNumber) (r : List Char)
    (h : parseNumber cs = some (n, r)) : r.length < cs.length := by
  simp only [parseNumber] at h
  split at h
  · cases h
  · rename_i d ds cs2 htd
    split at h
    · cases h
    · split at h
      · cases h
      · rename_i fs cs3 hfrac
        split at h
        · cases h
        · rename_i e cs4 hexp
          simp only [Option.some.injEq, Prod.mk.injEq] at h
          have h1 := parseFraction_length_le _ _ _ hfrac
          have h2 := parseExponent_length_le _ _ _ hexp
          have h3 := takeDigits_rest_lt (dropSign cs).2 (by rw [htd]; simp)
          rw [htd] at h3
          simp only at h3
          rw [← h.2]
          have h4 := dropSign_length_le cs
          omega

theorem skipWs_cons_length (cs r : List Char) (c : Char) (h : skipWs cs = c :: r) :
    r.length + 1 ≤ cs.length := by
  have := skipWs_length_le cs
  rw [h] at this
  simpa using this

theorem parse_length_lt (f : Nat) :
    (∀ cs v r, parseValue f cs = some (v, r) → r.length < cs.length) ∧
    (∀ cs acc v r, parseElements f cs acc = some (v, r) → r.length < cs.length) ∧
    (∀ cs acc v r, parseMembers f cs acc = some (v, r) → r.length < cs.length) := by
  induction f with
  | zero =>
    refine ⟨?_, ?_, ?_⟩
    · intro cs v r h; simp [parseValue] at h
    · intro cs acc v r h; simp [parseElements] at h
    · intro cs acc v r h; simp [parseMembers] at h
  | succ f ih =>
    obtain ⟨ihV, ihE, ihM⟩ := ih
    refine ⟨?_, ?_, ?_⟩
    · intro cs v r h
      cases hsk : skipWs cs with
      | nil => simp [parseValue, hsk] at h
      | cons c r0 =>
        have hlen := skipWs_cons_length cs r0 c hsk
        simp only [parseValue, hsk] at h
        split at h
        · simp only [Option.map_eq_some', Prod.mk.injEq] at h
          obtain ⟨r1, hr1, _, rfl⟩ := h
          have := expectLit_length_le _ _ _ hr1
          omega
        · split at h
          · simp only [Option.map_eq_some', Prod.mk.injEq] at h
            obtain ⟨r1, hr1, _, rfl⟩ := h
            have := expectLit_length_le _ _ _ hr1
            omega
          · split at h
            · simp only [Option.map_eq_some', Prod.mk.injEq] at h
              obtain ⟨r1, hr1, _, rfl⟩ := h
              have := expectLit_length_le _ _ _ hr1
              omega
            · split at h
              · simp only [Option.map_eq_some', Prod.mk.injEq] at h
                obtain ⟨p, hp, _, rfl⟩ := h
                have := parseString_length_lt _ _ _ p.1 p.2 hp
                omega
              · split at h
                · cases hsk2 : skipWs r0 with
                  | nil => simp [hsk2] at h
                  | cons c1 r1 =>
                    have hlen2 := skipWs_cons_length r0 r1 c1 hsk2
                    simp only [hsk2] at h
                    split at h
                    · simp only [Option.some.injEq, Prod.mk.injEq] at h
                      obtain ⟨_, rfl⟩ := h
                      omega
                    · have := ihE _ _ _ _ h
                      simp only [List.length_cons] at this
                      omega
                · split at h
                  · cases hsk2 : skipWs r0 with
                    | nil => simp [hsk2] at h
                    | cons c1 r1 =>
                      have hlen2 := skipWs_cons_length r0 r1 c1 hsk2
                      simp only [hsk2] at h
                      split at h
                      · simp only [Option.some.injEq, Prod.mk.injEq] at h
                        obtain ⟨_, rfl⟩ := h
                        omega
                      · have := ihM _ _ _ _ h
                        simp only [List.length_cons] at this
                        omega
                  · simp only [Option.map_eq_some', Prod.mk.injEq] at h
                    obtain ⟨p, hp, _, rfl⟩ := h
                    have := parseNumber_length_lt _ p.1 p.2 hp
                    simp only [List.length_cons] at this
                    omega
    · intro cs acc v r h
      simp only [parseElements] at h
      cases hv : parseValue f cs with
      | none => simp [hv] at h
      | some p =>
        obtain ⟨v0, r0⟩ := p
        have hlen0 := ihV _ _ _ hv
        simp only [hv] at h
        cases hsk : skipWs r0 with
        | nil => simp [hsk] at h
        | cons c r1 =>
          have hlen1 := skipWs_cons_length r0 r1 c hsk
          simp only [hsk] at h
          split at h
          · have := ihE _ _ _ _ h
            omega
          · split at h
            · simp only [Option.some.injEq, Prod.mk.injEq] at h
              obtain ⟨_, rfl⟩ := h
              omega
            · cases h
    · intro cs acc v r h
      simp only [parseMembers] at h
      cases hsk : skipWs cs with
      | nil => simp [hsk] at h
      | cons q r0 =>
        have hlen0 := skipWs_cons_length cs r0 q hsk
        simp only [hsk] at h
        split at h
        · cases hk : parseString r0 [] none with
          | none => simp [hk] at h
          | some p =>
            obtain ⟨k, r1⟩ := p
            have hlen1 := parseString_length_lt _ _ _ _ _ hk
            simp only [hk] at h
            cases hsk1 : skipWs r1 with
            | nil => simp [hsk1] at h
            | cons c r2 =>
              have hlen2 := skipWs_cons_length r1 r2 c hsk1
              simp only [hsk1] at h
              split at h
              · cases hv : parseValue f r2 with
                | none => simp [hv] at h
                | some p =>
                  obtain ⟨v0, r3⟩ := p
                  have hlen3 := ihV _ _ _ hv
                  simp only [hv] at h
                  cases hsk3 : skipWs r3 with
                  | nil => simp [hsk3] at h
                  | cons c1 r4 =>
                    have hlen4 := skipWs_cons_length r3 r4 c1 hsk3
                    simp only [hsk3] at h
                    split at h
                    · have := ihM _ _ _ _ h
                      omega
                    · split at h
                      · simp only [Option.some.injEq, Prod.mk.injEq] at h
                        obtain ⟨_, rfl⟩ := h
                        omega
                      · cases h
              · cases h
        · cases h

theorem parse_fuel_stable (f : Nat) :
    (∀ cs g, 2 * cs.length + 1 ≤ f → 2 * cs.length + 1 ≤ g →
      parseValue f cs = parseValue g cs) ∧
    (∀ cs acc g, 2 * cs.length + 2 ≤ f → 2 * cs.length + 2 ≤ g →
      parseElements f cs acc = parseElements g cs acc) ∧
    (∀ cs acc g, 2 * cs.length + 2 ≤ f → 2 * cs.length + 2 ≤ g →
      parseMembers f cs acc = parseMembers g cs acc) := by
  induction f with
  | zero =>
    refine ⟨?_, ?_, ?_⟩
    · intro cs g hf; omega
    · intro cs acc g hf; omega
    · intro cs acc g hf; omega
  | succ f ih =>
    obtain ⟨ihV, ihE, ihM⟩ := ih
    refine ⟨?_, ?_, ?_⟩
    · intro cs g hf hg
      cases g with
      | zero => omega
      | succ g =>
        cases hsk : skipWs cs with
        | nil => simp [parseValue, hsk]
        | cons c r0 =>
          have hlen := skipWs_cons_length cs r0 c hsk
          simp only [parseValue, hsk]
          by_cases h1 : c = 'n'
          · simp only [if_pos h1]
          by_cases h2 : c = 't'
          · simp only [if_neg h1, if_pos h2]
          by_cases h3 : c = 'f'
          · simp only [if_neg h1, if_neg h2, if_pos h3]
          by_cases h4 : c = dquote
          · simp only [if_neg h1, if_neg h2, if_neg h3, if_pos h4]
          by_cases h5 : c = '['
          · simp only [if_neg h1, if_neg h2, if_neg h3, if_neg h4, if_pos h5]
            cases hsk2 : skipWs r0 with
            | nil => rfl
            | cons c1 r1 =>
              have hlen2 := skipWs_cons_length r0 r1 c1 hsk2
              simp only
              by_cases h6 : c1 = ']'
              · simp only [if_pos h6]
              · simp only [if_neg h6]
                exact ihE _ _ _ (by simp only [List.length_cons]; omega)
                  (by simp only [List.length_cons]; omega)
          by_cases h7 : c = lbrace
          · simp only [if_neg h1, if_neg h2, if_neg h3, if_neg h4, if_neg h5, if_pos h7]
            cases hsk2 : skipWs r0 with
            | nil => rfl
            | cons c1 r1 =>
              have hlen2 := skipWs_cons_length r0 r1 c1 hsk2
              simp only
              by_cases h6 : c1 = rbrace
              · simp only [if_pos h6]
              · simp only [if_neg h6]
                exact ihM _ _ _ (by simp only [List.length_cons]; omega)
                  (by simp only [List.length_cons]; omega)
          · simp only [if_neg h1, if_neg h2, if_neg h3, if_neg h4, if_neg h5, if_neg h7]
    · intro cs acc g hf hg
      cases g with
      | zero => omega
      | succ g =>
        simp only [parseElements]
        rw [← ihV cs g (by omega) (by omega)]
        cases hv : parseValue f cs with
        | none => rfl
        | some p =>
          obtain ⟨v0, r0⟩ := p
          have hlen0 := (parse_length_lt f).1 _ _ _ hv
          simp only
          cases hsk : skipWs r0 with
          | nil => rfl
          | cons c r1 =>
            have hlen1 := skipWs_cons_length r0 r1 c hsk
            simp only
            by_cases h1 : c = ','
            · simp only [if_pos h1]
              exact ihE _ _ _ (by omega) (by omega)
            · simp only [if_neg h1]
    · intro cs acc g hf hg
      cases g with
      | zero => omega
      | succ g =>
        simp only [parseMembers]
        cases hsk : skipWs cs with
        | nil => rfl
        | cons q r0 =>
          have hlen0 := skipWs_cons_length cs r0 q hsk
          simp only
          by_cases hq : q = dquote
          · simp only [if_pos hq]
            cases hk : parseString r0 [] none with
            | none => rfl
            | some p =>
              obtain ⟨k, r1⟩ := p
              have hlen1 := parseString_length_lt _ _ _ _ _ hk
              simp only
              cases hsk1 : skipWs r1 with
              | nil => rfl
              | cons c r2 =>
                have hlen2 := skipWs_cons_length r1 r2 c hsk1
                simp only
                by_cases hc : c = ':'
                · simp only [if_pos hc]
                  rw [← ihV r2 g (by omega) (by omega)]
                  cases hv : parseValue f r2 with
                  | none => rfl
                  | some p =>
                    obtain ⟨v0, r3⟩ := p
                    have hlen3 := (parse_length_lt f).1 _ _ _ hv
                    simp only
                    cases hsk3 : skipWs r3 with
                    | nil => rfl
                    | cons c1 r4 =>
                      have hlen4 := skipWs_cons_length r3 r4 c1 hsk3
                      simp only
                      by_cases h1 : c1 = ','
                      · simp only [if_pos h1]
                        exact ihM _ _ _ (by omega) (by omega)
                      · simp only [if_neg h1]
                · simp only [if_neg hc]
          · simp only [if_neg hq]

/-- The value `JSON.parse` computes does not depend on the budget it is run with: every budget
of at least twice the length of the text plus one gives the same parse. -/
theorem JSON.parse_budget_independent (text : String) (g : Nat)
    (hg : 2 * text.length + 1 ≤ g) :
    parseValue g text.toList = parseValue (2 * text.length + 2) text.toList :=
  ((parse_fuel_stable g).1 text.toList (2 * text.length + 2)
    (by simpa using hg) (by simp)).trans rfl

end FirebaseAuthMigration
